import Mathlib

/-
  Verification development for the redo-replication engine
  (src/transaction/log_replication.cpp and src/transaction/log_storage.hpp).

  The replicator class of log_replication.cpp is shallowly embedded below:
  the mutable members (m_redo_lsa, the global log_Gl.hdr.mvcc_next_id counter)
  become fields of an explicit state record, the redo loops become fueled
  recursive functions returning Option / an explicit result type, and the
  invocation of an external recovery handler is recorded as an event appended
  to a trace inside the state.  Supporting types that live outside the two
  given files (log_lsa, the MVCCID macros, the per-kind record bodies, the
  condition-variable wait) are modelled from the spec, each marked as such.
-/

namespace cublog

/-- Modelled from the spec: LogPosition is a pair (page id, offset), totally
ordered by (page id, offset); the C++ type log_lsa lives in log_lsa.hpp which
is outside the given sources. -/
structure log_lsa where
  pageid : Int
  offset : Int
deriving DecidableEq, Repr

/-- Modelled from the spec: strict order on log positions, lexicographic on
(page id, offset). -/
def lsa_lt (a b : log_lsa) : Prop :=
  a.pageid < b.pageid ∨ (a.pageid = b.pageid ∧ a.offset < b.offset)

instance lsa_lt_dec (a b : log_lsa) : Decidable (lsa_lt a b) :=
  inferInstanceAs (Decidable (a.pageid < b.pageid ∨ (a.pageid = b.pageid ∧ a.offset < b.offset)))

/-- Modelled from the spec: reflexive order on log positions. -/
def lsa_le (a b : log_lsa) : Prop :=
  lsa_lt a b ∨ a = b

instance lsa_le_dec (a b : log_lsa) : Decidable (lsa_le a b) :=
  inferInstanceAs (Decidable (lsa_lt a b ∨ a = b))

/-- Modelled from the spec: MVCC visibility ids; the null id (MVCCID_NULL)
marks a record without a visibility id. -/
def MVCCID_NULL : Nat := 0

/-- Modelled from the spec: the wraparound-safe precedes relation on
visibility ids, restricted here to the non-wrapped id space where it is the
usual strict order (the C++ macro lives in mvcc.h, outside the given
sources). -/
def MVCC_ID_PRECEDES (a b : Nat) : Prop := a < b

instance mvcc_id_precedes_dec (a b : Nat) : Decidable (MVCC_ID_PRECEDES a b) :=
  inferInstanceAs (Decidable (a < b))

/-- Modelled from the spec: advancing a visibility id counter one past a
given id (the C++ macro MVCCID_FORWARD lives in mvcc.h, outside the given
sources; the spec says the counter is advanced to id + 1). -/
def MVCCID_FORWARD (a : Nat) : Nat := a + 1

/-- Record kind tags relevant to the dispatch switch of replicator::redo_upto.
The constructor LOG_OTHER n stands for every kind that falls to the default
branch of the switch (one constructor per integer code n). -/
inductive LOG_RECTYPE where
  | LOG_REDO_DATA
  | LOG_MVCC_REDO_DATA
  | LOG_UNDOREDO_DATA
  | LOG_DIFF_UNDOREDO_DATA
  | LOG_MVCC_UNDOREDO_DATA
  | LOG_MVCC_DIFF_UNDOREDO_DATA
  | LOG_RUN_POSTPONE
  | LOG_COMPENSATE
  | LOG_DBEXTERN_REDO_DATA
  | LOG_OTHER (code : Nat)
deriving DecidableEq, Repr

/-- Modelled from the spec: the common record header read first by redo_upto,
holding the kind tag and the forward-link position of the next record (the
C++ struct log_rec_header lives in log_record.hpp, outside the given
sources). -/
structure log_rec_header where
  type : LOG_RECTYPE
  forw_lsa : log_lsa
deriving DecidableEq, Repr

/-- Modelled from the spec: a decoded log record.  The header is the common
part; mvccid is the visibility id carried by the MVCC record variants;
length and rcvindex are the fields of the fixed header of the external
side-effect kind (log_rec_dbout_redo); vpid_vol and vpid_page are the target
resource locator. -/
structure log_record where
  header : log_rec_header
  mvccid : Nat
  length : Int
  rcvindex : Nat
  vpid_vol : Int
  vpid_page : Int
deriving DecidableEq, Repr

/-- The log stream, serving the record that starts at each position (the page
buffer and reader cursor are external collaborators; the replicator only ever
consumes the record at its current position). -/
abbrev Log := log_lsa → log_record

/-- Accessor log_rv_get_log_rec_mvccid: the MVCC record variants carry a
visibility id, every other kind yields MVCCID_NULL (the C++ overloads live in
log_recovery_redo.hpp, outside the given sources; the dispatch switch pairs
LOG_MVCC_REDO_DATA with log_rec_mvcc_redo and the two MVCC undoredo kinds
with log_rec_mvcc_undoredo). -/
def log_rv_get_log_rec_mvccid (rectype : LOG_RECTYPE) (rcd : log_record) : Nat :=
  match rectype with
  | .LOG_MVCC_REDO_DATA => rcd.mvccid
  | .LOG_MVCC_UNDOREDO_DATA => rcd.mvccid
  | .LOG_MVCC_DIFF_UNDOREDO_DATA => rcd.mvccid
  | _ => MVCCID_NULL

/-- One entry of the trace of external redo-handler invocations.  A sync
event records an invocation of log_rv_redo_record_sync (kind, record
position, the visibility id of the record, and the value of the global
counter log_Gl.hdr.mvcc_next_id at the moment of invocation); a dbextern
event records an invocation of log_rv_redo_record for the external
side-effect kind (the handler selected from the registry, the payload length
passed in rcv.length, and the record position). -/
inductive redo_event where
  | sync (rectype : LOG_RECTYPE) (rec_lsa : log_lsa) (mvccid : Nat) (counter_at_invoke : Nat)
  | dbextern (handler : Nat) (len : Int) (rec_lsa : log_lsa)
deriving DecidableEq, Repr

/-- State of the replicator together with the one piece of global state it
ratchets: m_redo_lsa is the member of the C++ class, mvcc_next_id embeds
log_Gl.hdr.mvcc_next_id, and events is the trace of handler invocations
performed so far (newest last). -/
structure replicator where
  m_redo_lsa : log_lsa
  mvcc_next_id : Nat
  events : List redo_event
deriving DecidableEq, Repr

/-- Embedding of replicator::read_and_redo_record (log_replication.cpp lines
144-162): extract the visibility id of the record; when it is non-null and
does not precede the global counter, set the counter to the id and advance it
(MVCCID_FORWARD); then invoke the synchronous redo handler, recorded here as
a sync event carrying the counter value visible at invocation time. -/
def read_and_redo_record (rectype : LOG_RECTYPE) (rcd : log_record) (rec_lsa : log_lsa)
    (st : replicator) : replicator :=
  let mvccid := log_rv_get_log_rec_mvccid rectype rcd
  let next_id :=
    if mvccid ≠ MVCCID_NULL ∧ ¬ MVCC_ID_PRECEDES mvccid st.mvcc_next_id then
      MVCCID_FORWARD mvccid
    else
      st.mvcc_next_id
  { st with
    mvcc_next_id := next_id,
    events := st.events ++ [redo_event.sync rectype rec_lsa mvccid next_id] }

/-- Embedding of one iteration of the loop body of replicator::redo_upto
(log_replication.cpp lines 89-141): read the record header at the current
position, dispatch on its kind (the eight handled kinds call
read_and_redo_record or, for the external side-effect kind, pass the length
field of the fixed header and the handler selected from the registry RV_fun
by rcvindex; every other kind does nothing), then set m_redo_lsa to the
forward link of the header. -/
def redo_record_step (RV_fun : Nat → Nat) (log : Log) (st : replicator) : replicator :=
  let rcd := log st.m_redo_lsa
  let header := rcd.header
  let st2 :=
    match header.type with
    | .LOG_REDO_DATA => read_and_redo_record header.type rcd st.m_redo_lsa st
    | .LOG_MVCC_REDO_DATA => read_and_redo_record header.type rcd st.m_redo_lsa st
    | .LOG_UNDOREDO_DATA => read_and_redo_record header.type rcd st.m_redo_lsa st
    | .LOG_DIFF_UNDOREDO_DATA => read_and_redo_record header.type rcd st.m_redo_lsa st
    | .LOG_MVCC_UNDOREDO_DATA => read_and_redo_record header.type rcd st.m_redo_lsa st
    | .LOG_MVCC_DIFF_UNDOREDO_DATA => read_and_redo_record header.type rcd st.m_redo_lsa st
    | .LOG_RUN_POSTPONE => read_and_redo_record header.type rcd st.m_redo_lsa st
    | .LOG_COMPENSATE => read_and_redo_record header.type rcd st.m_redo_lsa st
    | .LOG_DBEXTERN_REDO_DATA =>
        { st with
          events := st.events ++ [redo_event.dbextern (RV_fun rcd.rcvindex) rcd.length st.m_redo_lsa] }
    | .LOG_OTHER _ => st
  { st2 with m_redo_lsa := header.forw_lsa }

/-- Embedding of replicator::redo_upto (log_replication.cpp lines 79-142):
redo records one at a time while m_redo_lsa is strictly below end_redo_lsa.
Fuel bounds the number of iterations; none models non-termination within the
given fuel, some st models the function returning with final state st. -/
def redo_upto (RV_fun : Nat → Nat) (log : Log) (fuel : Nat) (st : replicator)
    (end_redo_lsa : log_lsa) : Option replicator :=
  match fuel with
  | 0 => none
  | Nat.succ f =>
    if lsa_lt st.m_redo_lsa end_redo_lsa then
      redo_upto RV_fun log f (redo_record_step RV_fun log st) end_redo_lsa
    else
      some st

/-- Outcome of replicator::redo_upto_nxio_lsa: normal return, failure of the
assertion m_redo_lsa == nxio_lsa, or fuel exhaustion. -/
inductive run_result where
  | ok (st : replicator)
  | assert_violation (st : replicator)
  | out_of_fuel
deriving DecidableEq, Repr

/-- Embedding of replicator::redo_upto_nxio_lsa (log_replication.cpp lines
59-77) for one published target value nxio_lsa: while the current position is
strictly below the target, call redo_upto; otherwise assert equality of
position and target and stop. -/
def redo_upto_nxio_lsa (RV_fun : Nat → Nat) (log : Log) (nxio_lsa : log_lsa)
    (inner_fuel : Nat) : Nat → replicator → run_result
  | 0, _ => .out_of_fuel
  | Nat.succ f, st =>
    if lsa_lt st.m_redo_lsa nxio_lsa then
      match redo_upto RV_fun log inner_fuel st nxio_lsa with
      | none => .out_of_fuel
      | some st2 => redo_upto_nxio_lsa RV_fun log nxio_lsa inner_fuel f st2
    else if st.m_redo_lsa = nxio_lsa then
      .ok st
    else
      .assert_violation st

/-- Position tgt is reached from a position by following the forward links of
the records, with every position strictly below tgt until tgt itself is
reached (i.e., tgt lies on the record-boundary chain of the log). -/
inductive chain_to (log : Log) (tgt : log_lsa) : log_lsa → Prop
  | done : chain_to log tgt tgt
  | step (a : log_lsa) : lsa_lt a tgt →
      chain_to log tgt ((log a).header.forw_lsa) → chain_to log tgt a

/-- Modelled from the spec: phase of a thread blocked in
replicator::wait_replication_finish.  A released waiter remembers the redo
position and the published target it observed when its predicate evaluated
true (the condition-variable re-checks the predicate under the mutex on each
wake, so release happens exactly at such an observation). -/
inductive waiter_phase where
  | waiting
  | released (m_at_release : log_lsa) (nxio_at_release : log_lsa)
deriving DecidableEq, Repr

/-- Modelled from the spec: shared state of the interleaved system — the
replicator (sole writer of the redo position), the externally published
latest durable position log_Gl.append.get_nxio_lsa, and one waiter thread
blocked in wait_replication_finish. -/
structure sys_state where
  repl : replicator
  nxio_lsa : log_lsa
  waiter : waiter_phase
deriving DecidableEq, Repr

/-- Modelled from the spec: interleaving semantics of the three permitted
concurrent interactions.  redo_one: the background task redoes one record
when behind the target (the loop body of redo_upto).  publish: the external
append path advances the published target forward.  wake: the waiter leaves
the condition-variable wait, which its predicate re-check permits only when
the redo position has reached the published target (log_replication.cpp
lines 164-172). -/
inductive sys_step (RV_fun : Nat → Nat) (log : Log) : sys_state → sys_state → Prop
  | redo_one (s : sys_state) :
      lsa_lt s.repl.m_redo_lsa s.nxio_lsa →
      sys_step RV_fun log s { s with repl := redo_record_step RV_fun log s.repl }
  | publish (s : sys_state) (nx : log_lsa) :
      lsa_le s.nxio_lsa nx →
      sys_step RV_fun log s { s with nxio_lsa := nx }
  | wake (s : sys_state) :
      s.waiter = .waiting →
      lsa_le s.nxio_lsa s.repl.m_redo_lsa →
      sys_step RV_fun log s { s with waiter := .released s.repl.m_redo_lsa s.nxio_lsa }

/-- Reflexive-transitive closure of sys_step from an initial state. -/
inductive sys_reachable (RV_fun : Nat → Nat) (log : Log) (init : sys_state) : sys_state → Prop
  | refl : sys_reachable RV_fun log init init
  | tail {b c : sys_state} : sys_reachable RV_fun log init b →
      sys_step RV_fun log b c → sys_reachable RV_fun log init c

theorem lsa_lt_irrefl (a : log_lsa) : ¬ lsa_lt a a := by
  unfold lsa_lt
  omega

theorem lsa_lt_trans {a b c : log_lsa} (h1 : lsa_lt a b) (h2 : lsa_lt b c) : lsa_lt a c := by
  unfold lsa_lt at h1 h2 ⊢
  omega

theorem lsa_le_of_lt {a b : log_lsa} (h : lsa_lt a b) : lsa_le a b := Or.inl h

theorem lsa_le_refl (a : log_lsa) : lsa_le a a := Or.inr rfl

theorem lsa_le_trans {a b c : log_lsa} (h1 : lsa_le a b) (h2 : lsa_le b c) : lsa_le a c := by
  rcases h1 with h1 | rfl
  · rcases h2 with h2 | rfl
    · exact Or.inl (lsa_lt_trans h1 h2)
    · exact Or.inl h1
  · exact h2

theorem redo_record_step_lsa (RV_fun : Nat → Nat) (log : Log) (st : replicator) :
    (redo_record_step RV_fun log st).m_redo_lsa = (log st.m_redo_lsa).header.forw_lsa := rfl

theorem read_and_redo_record_counter_le (rectype : LOG_RECTYPE) (rcd : log_record)
    (rec_lsa : log_lsa) (st : replicator) :
    st.mvcc_next_id ≤ (read_and_redo_record rectype rcd rec_lsa st).mvcc_next_id := by
  unfold read_and_redo_record
  dsimp only
  split
  · rename_i h
    obtain ⟨_, h2⟩ := h
    unfold MVCC_ID_PRECEDES at h2
    unfold MVCCID_FORWARD
    omega
  · exact Nat.le_refl _

theorem redo_record_step_counter_le (RV_fun : Nat → Nat) (log : Log) (st : replicator) :
    st.mvcc_next_id ≤ (redo_record_step RV_fun log st).mvcc_next_id := by
  cases htype : (log st.m_redo_lsa).header.type <;>
    simp only [redo_record_step, htype] <;>
    first
      | exact read_and_redo_record_counter_le ..
      | exact Nat.le_refl _

theorem chain_to_inv {log : Log} {tgt a : log_lsa} (h : chain_to log tgt a) :
    a = tgt ∨ (lsa_lt a tgt ∧ chain_to log tgt ((log a).header.forw_lsa)) := by
  cases h with
  | done => exact Or.inl rfl
  | step _ hl hc => exact Or.inr ⟨hl, hc⟩

theorem redo_upto_chain {RV_fun : Nat → Nat} {log : Log} {tgt : log_lsa} :
    ∀ (fuel : Nat) (st st2 : replicator), chain_to log tgt st.m_redo_lsa →
      redo_upto RV_fun log fuel st tgt = some st2 → st2.m_redo_lsa = tgt := by
  intro fuel
  induction fuel with
  | zero =>
    intro st st2 _ h
    simp [redo_upto] at h
  | succ f ih =>
    intro st st2 hch hrun
    unfold redo_upto at hrun
    by_cases hlt : lsa_lt st.m_redo_lsa tgt
    · rw [if_pos hlt] at hrun
      apply ih _ _ _ hrun
      rw [redo_record_step_lsa]
      rcases chain_to_inv hch with heq | ⟨_, hc⟩
      · rw [heq] at hlt
        exact absurd hlt (lsa_lt_irrefl _)
      · exact hc
    · rw [if_neg hlt] at hrun
      rw [Option.some_inj] at hrun
      subst hrun
      rcases chain_to_inv hch with heq | ⟨hl, _⟩
      · exact heq
      · exact absurd hl hlt

theorem redo_upto_counter_le {RV_fun : Nat → Nat} {log : Log} {tgt : log_lsa} :
    ∀ (fuel : Nat) (st st2 : replicator),
      redo_upto RV_fun log fuel st tgt = some st2 →
      st.mvcc_next_id ≤ st2.mvcc_next_id := by
  intro fuel
  induction fuel with
  | zero =>
    intro st st2 h
    simp [redo_upto] at h
  | succ f ih =>
    intro st st2 hrun
    unfold redo_upto at hrun
    by_cases hlt : lsa_lt st.m_redo_lsa tgt
    · rw [if_pos hlt] at hrun
      exact Nat.le_trans (redo_record_step_counter_le RV_fun log st) (ih _ _ hrun)
    · rw [if_neg hlt] at hrun
      rw [Option.some_inj] at hrun
      subst hrun
      exact Nat.le_refl _

theorem redo_upto_lsa_le {RV_fun : Nat → Nat} {log : Log}
    (wf : ∀ p : log_lsa, lsa_lt p ((log p).header.forw_lsa)) :
    ∀ (fuel : Nat) (st : replicator) (tgt : log_lsa) (st2 : replicator),
      redo_upto RV_fun log fuel st tgt = some st2 →
      lsa_le st.m_redo_lsa st2.m_redo_lsa := by
  intro fuel
  induction fuel with
  | zero =>
    intro st tgt st2 h
    simp [redo_upto] at h
  | succ f ih =>
    intro st tgt st2 hrun
    unfold redo_upto at hrun
    by_cases hlt : lsa_lt st.m_redo_lsa tgt
    · rw [if_pos hlt] at hrun
      have hstep : lsa_lt st.m_redo_lsa (redo_record_step RV_fun log st).m_redo_lsa := by
        rw [redo_record_step_lsa]
        exact wf _
      exact lsa_le_trans (lsa_le_of_lt hstep) (ih _ _ _ hrun)
    · rw [if_neg hlt] at hrun
      rw [Option.some_inj] at hrun
      subst hrun
      exact lsa_le_refl _

theorem redo_upto_nxio_lsa_le {RV_fun : Nat → Nat} {log : Log} {nxio : log_lsa}
    (wf : ∀ p : log_lsa, lsa_lt p ((log p).header.forw_lsa)) :
    ∀ (ofuel ifuel : Nat) (st st2 : replicator),
      redo_upto_nxio_lsa RV_fun log nxio ifuel ofuel st = .ok st2 →
      lsa_le st.m_redo_lsa st2.m_redo_lsa := by
  intro ofuel
  induction ofuel with
  | zero =>
    intro ifuel st st2 h
    simp [redo_upto_nxio_lsa] at h
  | succ f ih =>
    intro ifuel st st2 hrun
    unfold redo_upto_nxio_lsa at hrun
    by_cases hlt : lsa_lt st.m_redo_lsa nxio
    · rw [if_pos hlt] at hrun
      cases hin : redo_upto RV_fun log ifuel st nxio with
      | none => rw [hin] at hrun; cases hrun
      | some stm =>
        rw [hin] at hrun
        exact lsa_le_trans (redo_upto_lsa_le wf _ _ _ _ hin) (ih _ _ _ hrun)
    · rw [if_neg hlt] at hrun
      by_cases heq : st.m_redo_lsa = nxio
      · rw [if_pos heq] at hrun
        cases hrun
        exact lsa_le_refl _
      · rw [if_neg heq] at hrun
        cases hrun

/-- Identity registry used in concrete examples: handler n is the external
recovery function registered at index n. -/
def exRV : Nat → Nat := fun n => n

/-- Helper building a concrete decoded record. -/
def mk_rcd (t : LOG_RECTYPE) (fw : log_lsa) (v : Nat) (len : Int) (ri : Nat) : log_record :=
  { header := { type := t, forw_lsa := fw },
    mvccid := v, length := len, rcvindex := ri, vpid_vol := 0, vpid_page := 0 }

/-- Log for the C1 counterexample: every record has a forward link jumping to
offset 100, past the target offset 50. -/
def c1_log : Log := fun _ => mk_rcd (.LOG_OTHER 0) (log_lsa.mk 0 100) 0 0 0

/-- Start state for the C1 counterexample. -/
def c1_st : replicator := { m_redo_lsa := log_lsa.mk 0 0, mvcc_next_id := 5, events := [] }

/-- C1 counterexample: a target strictly greater than the current position
that does not lie on the record-boundary chain is overshot — redo_upto
returns with m_redo_lsa = (0, 100), not the target (0, 50).  The loop
condition is indeed checked before each record, but a single record whose
forward link jumps past the target already violates the claimed equality. -/
theorem C1_counterexample :
    lsa_lt c1_st.m_redo_lsa (log_lsa.mk 0 50) ∧
    redo_upto exRV c1_log 2 c1_st (log_lsa.mk 0 50) =
      some { c1_st with m_redo_lsa := log_lsa.mk 0 100 } ∧
    ({ c1_st with m_redo_lsa := log_lsa.mk 0 100 } : replicator).m_redo_lsa ≠ log_lsa.mk 0 50 :=
  ⟨by decide, by decide, by decide⟩

/-- C1 (amended): for every target T strictly greater than the current redo
position, provided T lies on the forward-link chain of records starting at
the current position (each position reached before T is strictly below T),
after redo_upto returns the redo position equals T exactly. -/
theorem C1_redo_upto_completeness (RV_fun : Nat → Nat) (log : Log) (tgt : log_lsa)
    (st st2 : replicator) (fuel : Nat)
    (_hlt : lsa_lt st.m_redo_lsa tgt)
    (hch : chain_to log tgt st.m_redo_lsa)
    (hrun : redo_upto RV_fun log fuel st tgt = some st2) :
    st2.m_redo_lsa = tgt :=
  redo_upto_chain fuel st st2 hch hrun

/-- Log for the C1 witness: a two-record chain (0,0) to (0,10) to (0,20). -/
def c1w_log : Log := fun p =>
  if p = log_lsa.mk 0 0 then mk_rcd .LOG_REDO_DATA (log_lsa.mk 0 10) 0 0 0
  else if p = log_lsa.mk 0 10 then mk_rcd (.LOG_OTHER 3) (log_lsa.mk 0 20) 0 0 0
  else mk_rcd (.LOG_OTHER 0) (log_lsa.mk 0 30) 0 0 0

/-- Start state for the C1 witness. -/
def c1w_st : replicator := { m_redo_lsa := log_lsa.mk 0 0, mvcc_next_id := 0, events := [] }

/-- Chain fact for the C1 witness: the target (0, 20) lies on the
record-boundary chain of c1w_log starting at (0, 0). -/
theorem c1w_chain : chain_to c1w_log (log_lsa.mk 0 20) c1w_st.m_redo_lsa := by
  have h1 : (c1w_log c1w_st.m_redo_lsa).header.forw_lsa = log_lsa.mk 0 10 := by decide
  have h2 : (c1w_log (log_lsa.mk 0 10)).header.forw_lsa = log_lsa.mk 0 20 := by decide
  refine chain_to.step _ (by decide) ?_
  rw [h1]
  refine chain_to.step _ (by decide) ?_
  rw [h2]
  exact chain_to.done

theorem C1_witness :
    (redo_upto exRV c1w_log 3 c1w_st (log_lsa.mk 0 20)).map replicator.m_redo_lsa =
      some (log_lsa.mk 0 20) := by
  cases hrun : redo_upto exRV c1w_log 3 c1w_st (log_lsa.mk 0 20) with
  | none => exact absurd hrun (by decide)
  | some st2 =>
    have h := C1_redo_upto_completeness exRV c1w_log (log_lsa.mk 0 20) c1w_st st2 3
      (by decide) c1w_chain hrun
    simp [h]

/-- C2: the MVCC watermark ratchet of read_and_redo_record.  (i) When the
record carries a non-null visibility id v that does not precede the global
counter, the counter is advanced to v + 1.  (ii) After any record carrying a
non-null id v is replayed, the counter is at least v + 1.  (iii) One redo
step never decreases the counter.  (iv) The counter never decreases across
any sequence of records replayed by redo_upto. -/
theorem C2_watermark (RV_fun : Nat → Nat) (log : Log) :
    (∀ (rectype : LOG_RECTYPE) (rcd : log_record) (rec_lsa : log_lsa) (st : replicator),
      log_rv_get_log_rec_mvccid rectype rcd ≠ MVCCID_NULL →
      ¬ MVCC_ID_PRECEDES (log_rv_get_log_rec_mvccid rectype rcd) st.mvcc_next_id →
      (read_and_redo_record rectype rcd rec_lsa st).mvcc_next_id =
        log_rv_get_log_rec_mvccid rectype rcd + 1) ∧
    (∀ (rectype : LOG_RECTYPE) (rcd : log_record) (rec_lsa : log_lsa) (st : replicator),
      log_rv_get_log_rec_mvccid rectype rcd ≠ MVCCID_NULL →
      log_rv_get_log_rec_mvccid rectype rcd + 1 ≤
        (read_and_redo_record rectype rcd rec_lsa st).mvcc_next_id) ∧
    (∀ st : replicator, st.mvcc_next_id ≤ (redo_record_step RV_fun log st).mvcc_next_id) ∧
    (∀ (fuel : Nat) (st st2 : replicator) (tgt : log_lsa),
      redo_upto RV_fun log fuel st tgt = some st2 →
      st.mvcc_next_id ≤ st2.mvcc_next_id) := by
  refine ⟨?_, ?_, ?_, ?_⟩
  · intro rectype rcd rec_lsa st h1 h2
    simp only [read_and_redo_record]
    rw [if_pos ⟨h1, h2⟩]
    rfl
  · intro rectype rcd rec_lsa st h1
    simp only [read_and_redo_record]
    by_cases h2 : MVCC_ID_PRECEDES (log_rv_get_log_rec_mvccid rectype rcd) st.mvcc_next_id
    · rw [if_neg (fun hc => hc.2 h2)]
      unfold MVCC_ID_PRECEDES at h2
      omega
    · rw [if_pos ⟨h1, h2⟩]
      unfold MVCCID_FORWARD
      omega
  · intro st
    exact redo_record_step_counter_le RV_fun log st
  · intro fuel st st2 tgt h
    exact redo_upto_counter_le fuel st st2 h

/-- Record for the C2 witness: an MVCC redo record with visibility id 42. -/
def c2_rcd : log_record := mk_rcd .LOG_MVCC_REDO_DATA (log_lsa.mk 0 10) 42 0 0

/-- State for the C2 witness: the global counter currently holds 10. -/
def c2_st : replicator := { m_redo_lsa := log_lsa.mk 0 0, mvcc_next_id := 10, events := [] }

theorem C2_witness :
    (read_and_redo_record .LOG_MVCC_REDO_DATA c2_rcd (log_lsa.mk 0 0) c2_st).mvcc_next_id = 43 := by
  have h := (C2_watermark exRV c1_log).1 .LOG_MVCC_REDO_DATA c2_rcd (log_lsa.mk 0 0) c2_st
    (by decide) (by decide)
  rw [h]
  decide

/-- C3: in the outer catch-up loop redo_upto_nxio_lsa, whenever the current
redo position is not strictly below the published target the two are exactly
equal — under the invariant that the position only advances along the
forward-link chain of records strictly below the target until the target is
reached (chain_to), the assertion m_redo_lsa == nxio_lsa never fails, i.e.
the run never produces the assert_violation outcome. -/
theorem C3_assert_never_fails (RV_fun : Nat → Nat) (log : Log) (nxio : log_lsa) :
    ∀ (ofuel ifuel : Nat) (st st2 : replicator), chain_to log nxio st.m_redo_lsa →
      redo_upto_nxio_lsa RV_fun log nxio ifuel ofuel st ≠ .assert_violation st2 := by
  intro ofuel
  induction ofuel with
  | zero =>
    intro ifuel st st2 _ h
    simp [redo_upto_nxio_lsa] at h
  | succ f ih =>
    intro ifuel st st2 hch h
    unfold redo_upto_nxio_lsa at h
    by_cases hlt : lsa_lt st.m_redo_lsa nxio
    · rw [if_pos hlt] at h
      cases hin : redo_upto RV_fun log ifuel st nxio with
      | none =>
        rw [hin] at h
        exact run_result.noConfusion h
      | some stm =>
        rw [hin] at h
        have hm : stm.m_redo_lsa = nxio := redo_upto_chain ifuel st stm hch hin
        exact ih ifuel stm st2 (hm ▸ chain_to.done) h
    · rw [if_neg hlt] at h
      rcases chain_to_inv hch with heq | ⟨hl, _⟩
      · rw [if_pos heq] at h
        exact run_result.noConfusion h
      · exact hlt hl

/-- Log for the C3 witness: a two-record chain (0,0) to (0,7) to (0,9). -/
def c3_log : Log := fun p =>
  if p = log_lsa.mk 0 0 then mk_rcd .LOG_COMPENSATE (log_lsa.mk 0 7) 0 0 0
  else if p = log_lsa.mk 0 7 then mk_rcd .LOG_RUN_POSTPONE (log_lsa.mk 0 9) 0 0 0
  else mk_rcd (.LOG_OTHER 0) (log_lsa.mk 0 11) 0 0 0

/-- Start state for the C3 witness. -/
def c3_st : replicator := { m_redo_lsa := log_lsa.mk 0 0, mvcc_next_id := 0, events := [] }

/-- Chain fact for the C3 witness. -/
theorem c3_chain : chain_to c3_log (log_lsa.mk 0 9) c3_st.m_redo_lsa := by
  have h1 : (c3_log c3_st.m_redo_lsa).header.forw_lsa = log_lsa.mk 0 7 := by decide
  have h2 : (c3_log (log_lsa.mk 0 7)).header.forw_lsa = log_lsa.mk 0 9 := by decide
  refine chain_to.step _ (by decide) ?_
  rw [h1]
  refine chain_to.step _ (by decide) ?_
  rw [h2]
  exact chain_to.done

theorem C3_witness :
    redo_upto_nxio_lsa exRV c3_log (log_lsa.mk 0 9) 3 3 c3_st ≠
      run_result.assert_violation c3_st :=
  C3_assert_never_fails exRV c3_log (log_lsa.mk 0 9) 3 3 c3_st c3_st c3_chain

/-- C4: monotonicity of the redo position, for a log whose records all carry
a forward link strictly past the record (the meaning of forward link in the
data model).  Each redo step strictly increases m_redo_lsa to the forward
link of the record just redone; redo_upto never decreases it; and a whole
catch-up call (redo_upto_nxio_lsa) never decreases it, hence the position is
non-decreasing across any sequence of catch-up invocations. -/
theorem C4_monotonicity (RV_fun : Nat → Nat) (log : Log)
    (wf : ∀ p : log_lsa, lsa_lt p ((log p).header.forw_lsa)) :
    (∀ st : replicator, lsa_lt st.m_redo_lsa (redo_record_step RV_fun log st).m_redo_lsa) ∧
    (∀ (fuel : Nat) (st : replicator) (tgt : log_lsa) (st2 : replicator),
      redo_upto RV_fun log fuel st tgt = some st2 → lsa_le st.m_redo_lsa st2.m_redo_lsa) ∧
    (∀ (ofuel ifuel : Nat) (nxio : log_lsa) (st st2 : replicator),
      redo_upto_nxio_lsa RV_fun log nxio ifuel ofuel st = .ok st2 →
      lsa_le st.m_redo_lsa st2.m_redo_lsa) := by
  refine ⟨?_, ?_, ?_⟩
  · intro st
    rw [redo_record_step_lsa]
    exact wf _
  · intro fuel st tgt st2 h
    exact redo_upto_lsa_le wf fuel st tgt st2 h
  · intro ofuel ifuel nxio st st2 h
    exact redo_upto_nxio_lsa_le wf ofuel ifuel st st2 h

/-- Log for the C4 witness: the record at every position p links forward to
the next offset on the same page. -/
def c4_log : Log := fun p => mk_rcd .LOG_REDO_DATA (log_lsa.mk p.pageid (p.offset + 1)) 7 0 0

/-- Start state for the C4 witness. -/
def c4_st : replicator := { m_redo_lsa := log_lsa.mk 0 0, mvcc_next_id := 0, events := [] }

/-- Final state of the C4 witness run: two records redone. -/
def c4_st2 : replicator :=
  { m_redo_lsa := log_lsa.mk 0 2, mvcc_next_id := 0,
    events := [.sync .LOG_REDO_DATA (log_lsa.mk 0 0) 0 0,
               .sync .LOG_REDO_DATA (log_lsa.mk 0 1) 0 0] }

/-- Well-formedness of c4_log: every forward link is strictly past its
record. -/
theorem c4_wf : ∀ p : log_lsa, lsa_lt p ((c4_log p).header.forw_lsa) := by
  intro p
  show lsa_lt p (log_lsa.mk p.pageid (p.offset + 1))
  unfold lsa_lt
  dsimp only
  omega

theorem C4_witness : lsa_le c4_st.m_redo_lsa (log_lsa.mk 0 2) := by
  have h := (C4_monotonicity exRV c4_log c4_wf).2.1 3 c4_st (log_lsa.mk 0 2) c4_st2 (by decide)
  have h2 : c4_st2.m_redo_lsa = log_lsa.mk 0 2 := by decide
  rw [h2] at h
  exact h

/-- C6: a record whose kind falls to the default branch of the dispatch
switch is silently skipped — no handler invocation is recorded, the global
counter is untouched, and the redo position still advances exactly to the
forward-link field of the record header. -/
theorem C6_skip_unknown (RV_fun : Nat → Nat) (log : Log) (st : replicator) (code : Nat)
    (h : (log st.m_redo_lsa).header.type = .LOG_OTHER code) :
    redo_record_step RV_fun log st =
      { st with m_redo_lsa := (log st.m_redo_lsa).header.forw_lsa } := by
  simp only [redo_record_step, h]

/-- Log for the C6 witness: a record of an unhandled kind. -/
def c6_log : Log := fun _ => mk_rcd (.LOG_OTHER 99) (log_lsa.mk 3 4) 5 6 7

/-- Start state for the C6 witness. -/
def c6_st : replicator := { m_redo_lsa := log_lsa.mk 0 0, mvcc_next_id := 1, events := [] }

theorem C6_witness :
    redo_record_step exRV c6_log c6_st = { c6_st with m_redo_lsa := log_lsa.mk 3 4 } := by
  have h := C6_skip_unknown exRV c6_log c6_st 99 (by decide)
  rw [h]
  decide

/-- C7: once the redo position equals the published target and the target
does not change, a further catch-up call is a no-op — redo_upto_nxio_lsa
returns ok with the state unchanged, applying no record. -/
theorem C7_idempotent (RV_fun : Nat → Nat) (log : Log) (nxio : log_lsa)
    (st : replicator) (ifuel ofuel : Nat) (h : st.m_redo_lsa = nxio) :
    redo_upto_nxio_lsa RV_fun log nxio ifuel (ofuel + 1) st = .ok st := by
  have hn : ¬ lsa_lt st.m_redo_lsa nxio := by
    rw [h]
    exact lsa_lt_irrefl nxio
  unfold redo_upto_nxio_lsa
  rw [if_neg hn, if_pos h]

/-- Log for the C7 witness. -/
def c7_log : Log := fun _ => mk_rcd .LOG_REDO_DATA (log_lsa.mk 9 9) 0 0 0

/-- State for the C7 witness, already at the target. -/
def c7_st : replicator := { m_redo_lsa := log_lsa.mk 1 1, mvcc_next_id := 4, events := [] }

theorem C7_witness :
    redo_upto_nxio_lsa exRV c7_log (log_lsa.mk 1 1) 2 3 c7_st = run_result.ok c7_st :=
  C7_idempotent exRV c7_log (log_lsa.mk 1 1) c7_st 2 2 (by decide)

/-- C8: for a record of the external side-effect kind LOG_DBEXTERN_REDO_DATA,
the redo invocation receives the payload length taken explicitly from the
length field of the fixed header of the record, and the handler invoked is
selected from the injected registry RV_fun by the resource-type index
rcvindex of the record; the position then advances to the forward link. -/
theorem C8_dbextern_dispatch (RV_fun : Nat → Nat) (log : Log) (st : replicator)
    (h : (log st.m_redo_lsa).header.type = .LOG_DBEXTERN_REDO_DATA) :
    redo_record_step RV_fun log st =
      { st with
        m_redo_lsa := (log st.m_redo_lsa).header.forw_lsa,
        events := st.events ++
          [redo_event.dbextern (RV_fun (log st.m_redo_lsa).rcvindex)
            ((log st.m_redo_lsa).length) st.m_redo_lsa] } := by
  simp only [redo_record_step, h]

/-- Log for the C8 witness: an external side-effect record with length 17 and
resource-type index 5. -/
def c8_log : Log := fun _ => mk_rcd .LOG_DBEXTERN_REDO_DATA (log_lsa.mk 2 0) 0 17 5

/-- Start state for the C8 witness. -/
def c8_st : replicator := { m_redo_lsa := log_lsa.mk 1 0, mvcc_next_id := 0, events := [] }

theorem C8_witness :
    redo_record_step exRV c8_log c8_st =
      { c8_st with
        m_redo_lsa := log_lsa.mk 2 0,
        events := [redo_event.dbextern 5 17 (log_lsa.mk 1 0)] } := by
  have h := C8_dbextern_dispatch exRV c8_log c8_st (by decide)
  rw [h]
  decide

/-- C9: within the replay of a single MVCC-bearing record, the watermark is
ratcheted before the redo handler is invoked — the sync event recording the
handler invocation carries the already-ratcheted counter, and the non-null
visibility id of the record strictly precedes that counter at invocation
time. -/
theorem C9_ratchet_before_invoke (rectype : LOG_RECTYPE) (rcd : log_record)
    (rec_lsa : log_lsa) (st : replicator)
    (h : log_rv_get_log_rec_mvccid rectype rcd ≠ MVCCID_NULL) :
    (read_and_redo_record rectype rcd rec_lsa st).events =
      st.events ++ [redo_event.sync rectype rec_lsa (log_rv_get_log_rec_mvccid rectype rcd)
        ((read_and_redo_record rectype rcd rec_lsa st).mvcc_next_id)] ∧
    MVCC_ID_PRECEDES (log_rv_get_log_rec_mvccid rectype rcd)
      ((read_and_redo_record rectype rcd rec_lsa st).mvcc_next_id) := by
  constructor
  · simp only [read_and_redo_record]
  · simp only [read_and_redo_record]
    by_cases h2 : MVCC_ID_PRECEDES (log_rv_get_log_rec_mvccid rectype rcd) st.mvcc_next_id
    · rw [if_neg (fun hc => hc.2 h2)]
      exact h2
    · rw [if_pos ⟨h, h2⟩]
      unfold MVCC_ID_PRECEDES MVCCID_FORWARD
      omega

/-- Record for the C9 witness: an MVCC undoredo record with visibility id 8. -/
def c9_rcd : log_record := mk_rcd .LOG_MVCC_UNDOREDO_DATA (log_lsa.mk 0 6) 8 0 0

/-- Start state for the C9 witness: the global counter holds 3. -/
def c9_st : replicator := { m_redo_lsa := log_lsa.mk 0 0, mvcc_next_id := 3, events := [] }

theorem C9_witness :
    MVCC_ID_PRECEDES (log_rv_get_log_rec_mvccid .LOG_MVCC_UNDOREDO_DATA c9_rcd)
      ((read_and_redo_record .LOG_MVCC_UNDOREDO_DATA c9_rcd (log_lsa.mk 0 0) c9_st).mvcc_next_id) :=
  (C9_ratchet_before_invoke .LOG_MVCC_UNDOREDO_DATA c9_rcd (log_lsa.mk 0 0) c9_st (by decide)).2

/-- C5: waiter correctness.  In any execution of the interleaved system that
starts with the waiter blocked, whenever the waiter has been released, the
predicate re-checked at its release observed a redo position at or past the
published target — the waiter is never released before the background task
has actually reached the target. -/
theorem C5_waiter_correct (RV_fun : Nat → Nat) (log : Log) (init s : sys_state)
    (hinit : init.waiter = .waiting)
    (hr : sys_reachable RV_fun log init s)
    (m nx : log_lsa) (hw : s.waiter = .released m nx) :
    lsa_le nx m := by
  revert hw
  induction hr with
  | refl =>
    intro hw
    rw [hinit] at hw
    exact waiter_phase.noConfusion hw
  | tail hr2 hstep ih =>
    intro hw
    cases hstep with
    | redo_one hlt => exact ih hw
    | publish nx2 hle => exact ih hw
    | wake hw1 hp =>
      injection hw with e1 e2
      rw [← e1, ← e2]
      exact hp

/-- Log for the C5 and C10 witnesses. -/
def c5_log : Log := fun _ => mk_rcd (.LOG_OTHER 0) (log_lsa.mk 0 0) 0 0 0

/-- Initial system state for the C5 witness: the waiter is blocked while the
redo position (1, 0) is already past the published target (0, 5). -/
def c5_init : sys_state :=
  { repl := { m_redo_lsa := log_lsa.mk 1 0, mvcc_next_id := 0, events := [] },
    nxio_lsa := log_lsa.mk 0 5, waiter := .waiting }

/-- State after the wake step of the C5 witness. -/
def c5_fin : sys_state :=
  { c5_init with waiter := .released c5_init.repl.m_redo_lsa c5_init.nxio_lsa }

theorem C5_witness : lsa_le (log_lsa.mk 0 5) (log_lsa.mk 1 0) := by
  have hstep : sys_step exRV c5_log c5_init c5_fin :=
    sys_step.wake c5_init (by decide) (by decide)
  have hreach : sys_reachable exRV c5_log c5_init c5_fin :=
    sys_reachable.tail sys_reachable.refl hstep
  exact C5_waiter_correct exRV c5_log c5_init c5_fin (by decide) hreach
    (log_lsa.mk 1 0) (log_lsa.mk 0 5) (by decide)

/-- C10: if at the moment wait_replication_finish evaluates its predicate the
redo position is already at or past the published target, the wake step is
enabled immediately — the call returns without any intervening redo or
publish step — and it leaves the replicator state and the published target
unchanged. -/
theorem C10_no_block (RV_fun : Nat → Nat) (log : Log) (s : sys_state)
    (hw : s.waiter = .waiting)
    (hp : lsa_le s.nxio_lsa s.repl.m_redo_lsa) :
    sys_step RV_fun log s { s with waiter := .released s.repl.m_redo_lsa s.nxio_lsa } ∧
    ({ s with waiter := .released s.repl.m_redo_lsa s.nxio_lsa }).repl = s.repl ∧
    ({ s with waiter := .released s.repl.m_redo_lsa s.nxio_lsa }).nxio_lsa = s.nxio_lsa :=
  ⟨sys_step.wake s hw hp, rfl, rfl⟩

/-- Initial system state for the C10 witness: position (4, 2) equals the
published target. -/
def c10_init : sys_state :=
  { repl := { m_redo_lsa := log_lsa.mk 4 2, mvcc_next_id := 6, events := [] },
    nxio_lsa := log_lsa.mk 4 2, waiter := .waiting }

theorem C10_witness :
    sys_step exRV c5_log c10_init
      { c10_init with waiter := .released c10_init.repl.m_redo_lsa c10_init.nxio_lsa } ∧
    ({ c10_init with
        waiter := .released c10_init.repl.m_redo_lsa c10_init.nxio_lsa }).repl = c10_init.repl ∧
    ({ c10_init with
        waiter := .released c10_init.repl.m_redo_lsa c10_init.nxio_lsa }).nxio_lsa =
      c10_init.nxio_lsa :=
  C10_no_block exRV c5_log c10_init (by decide) (by decide)

end cublog
